import Mathlib

/-!
# Shallow embedding of the scheduling core of `app.py`

This file embeds the scheduling core of the repository (the functions
`days_until_deadline`, `compute_score`, `sort_key` and
`schedule_tasks_for_day` of `src/app.py`) in Lean and proves the spec's
claims about it.

Modelling conventions:
* Python `float` values (impact, scores, urgency) are modelled as `ℚ`;
  all arithmetic the scorer performs is exact on the inputs involved.
* Python `int` is `Int`.
* The current date (`date.today()`) is injected as its proleptic-Gregorian
  ordinal (`date.toordinal()`), an `Int` parameter `todayOrd`.
* Times of day (`datetime.time`, rendered `"HH:MM"` by `format_time`) are
  minutes after midnight, an `Int` in `[0, 1440)`: Python's
  `datetime.combine(...) + timedelta(...)).time()` wraps modulo 24 h, which
  is `% 1440` here.  The `"HH:MM"` rendering is an injective, order-
  preserving image of this value, so equalities and `<` on these numbers
  match equalities and `<` on the source's strings.
* `schedule_tasks_for_day` takes the integer budget `total_minutes`
  directly; the source computes it as `int(hours * 60)` from its `hours`
  argument before any other use.
* Exceptions (`ValueError` from `int(...)`/`time(...)`) are `Except String`.
-/

/-- A stored task record (the spec's `TaskRecord`; the name `Task` is
taken by Lean's core library), as produced by the `/add` route of
`app.py`: `minutes` has been converted with `int(...)`, `impact` with
`float(...)`, and `deadline` is an optional raw string. -/
structure TaskRecord where
  title : String
  minutes : Int
  impact : ℚ
  deadline : Option String
deriving Repr, DecidableEq

/-- One scheduled block, as appended to `schedule` in
`schedule_tasks_for_day`.  `start` and `stop` are the times of day the
source renders as the strings `"HH:MM"` (the source's keys `start` and
`end`). -/
structure Block where
  title : String
  start : Int
  stop : Int
  minutes : Int
  impact : ℚ
  deadline : Option String
deriving Repr, DecidableEq

/-! ## Date parsing: `datetime.strptime(deadline_str, "%Y-%m-%d").date()`

CPython's `_strptime` compiles `"%Y-%m-%d"` to the anchored regex
`(\d\d\d\d)-(1[0-2]|0[1-9]|[1-9])-(3[01]|[12]\d|0[1-9]|[1-9]| [1-9])`
(year exactly four digits; month one or two digits 1–12; day one or two
digits 1–31, or space-padded ` 1`–` 9`) and requires the whole string to
be consumed; the `date` constructor then additionally requires
`1 ≤ year` and `day ≤ days_in_month(year, month)`.
-/

/-- A proleptic Gregorian calendar date. -/
structure Date where
  year : Nat
  month : Nat
  day : Nat
deriving Repr, DecidableEq

/-- Gregorian leap-year rule. -/
def isLeap (y : Nat) : Bool :=
  (y % 4 == 0 && y % 100 != 0) || y % 400 == 0

/-- Number of days in month `m` of year `y`. -/
def daysInMonth (y m : Nat) : Nat :=
  if m = 2 then (if isLeap y then 29 else 28)
  else if m = 4 ∨ m = 6 ∨ m = 9 ∨ m = 11 then 30
  else 31

/-- Split a character list at every occurrence of `sep` (Python's
`str.split(sep)`: `n` separators yield `n + 1` groups, empty groups
included). -/
def splitOnChar (sep : Char) : List Char → List (List Char)
  | [] => [[]]
  | c :: cs =>
    match splitOnChar sep cs with
    | g :: gs => if c = sep then [] :: g :: gs else (c :: g) :: gs
    | [] => if c = sep then [[], []] else [[c]]

/-- The value of a run of ASCII digits. -/
def digitsVal (cs : List Char) : Nat :=
  cs.foldl (fun acc c => acc * 10 + (c.toNat - 48)) 0

/-- CPython's `%Y` group (`_strptime.TimeRE`): exactly four digits. -/
def pyYear? (cs : List Char) : Option Nat :=
  if cs.length = 4 ∧ cs.all Char.isDigit then some (digitsVal cs) else none

/-- CPython's `%m` group: the regex `1[0-2]|0[1-9]|[1-9]`, i.e. one or
two digits whose value is 1–12 (no space padding). -/
def pyMonth? (cs : List Char) : Option Nat :=
  if (1 ≤ cs.length ∧ cs.length ≤ 2) ∧ cs.all Char.isDigit then
    if 1 ≤ digitsVal cs ∧ digitsVal cs ≤ 12 then some (digitsVal cs) else none
  else none

/-- CPython's `%d` group: the regex `3[01]|[12]\d|0[1-9]|[1-9]| [1-9]`,
i.e. one or two digits whose value is 1–31, or a space followed by a
nonzero digit. -/
def pyDay? (cs : List Char) : Option Nat :=
  match cs with
  | [' ', c] =>
    if c.isDigit ∧ c ≠ '0' then some (c.toNat - 48) else none
  | _ =>
    if (1 ≤ cs.length ∧ cs.length ≤ 2) ∧ cs.all Char.isDigit then
      if 1 ≤ digitsVal cs ∧ digitsVal cs ≤ 31 then some (digitsVal cs) else none
    else none

/-- `datetime.strptime(s, "%Y-%m-%d")` followed by the validation of the
`date` constructor, returning `none` where Python raises.  `strptime`
compiles the format to the anchored regex
`(\d\d\d\d)-(1[0-2]|0[1-9]|[1-9])-(3[01]|[12]\d|0[1-9]|[1-9]| [1-9])`
and requires the whole string to be consumed; since neither the groups
nor the literal dashes can match a dash, this is the same as splitting
the string at its dashes into exactly three groups.  The `date`
constructor then additionally requires `1 ≤ year` and
`day ≤ days_in_month(year, month)`.  (Python's `\d` and `int` also
accept non-ASCII decimal digits; only ASCII digits are modelled.) -/
def parseDate (s : String) : Option Date :=
  match splitOnChar '-' s.toList with
  | [ys, ms, ds] =>
    match pyYear? ys, pyMonth? ms, pyDay? ds with
    | some y, some m, some d =>
      if 1 ≤ y ∧ d ≤ daysInMonth y m then some ⟨y, m, d⟩ else none
    | _, _, _ => none
  | _ => none

/-- Days of year `y` that precede month `m` (the months `1, …, m-1`). -/
def daysBeforeMonth (y m : Nat) : Nat :=
  (List.range (m - 1)).foldl (fun acc i => acc + daysInMonth y (i + 1)) 0

/-- `date.toordinal()`: day number in the proleptic Gregorian calendar,
with 0001-01-01 as day 1. -/
def dateOrdinal (d : Date) : Int :=
  (365 * ((d.year : Int) - 1))
    + (((d.year - 1) / 4 : Nat) : Int)
    - (((d.year - 1) / 100 : Nat) : Int)
    + (((d.year - 1) / 400 : Nat) : Int)
    + (daysBeforeMonth d.year d.month : Int)
    + (d.day : Int)

/-- `days_until_deadline` of `app.py`: `None` for a missing/empty/unparseable
deadline string, else `max(0, (d - date.today()).days)`.  (Python's
`if not deadline_str` treats the empty string like `None`; `parseDate ""`
is `none`, so the empty string needs no special case here.) -/
def days_until_deadline (todayOrd : Int) (deadline : Option String) : Option Int :=
  match deadline with
  | none => none
  | some s =>
    match parseDate s with
    | none => none
    | some d => some (max 0 (dateOrdinal d - todayOrd))

/-- The `urgency` value computed inside `compute_score`: `1.0` when
`days_left is None`, else `1.0 + max(0, (max_window - days_left) / max_window)`.
(The division is exact rational division; the source divides floats.
For `max_window = 0` the source raises `ZeroDivisionError` on this branch;
theorems touching it therefore assume a nonzero window.) -/
def urgencyVal (days_left : Option Int) (max_window : Int) : ℚ :=
  match days_left with
  | none => 1
  | some d => 1 + max 0 (((max_window : ℚ) - (d : ℚ)) / (max_window : ℚ))

/-- `compute_score` of `app.py`:
`(impact / max(1, minutes)) * urgency`. -/
def compute_score (todayOrd : Int) (t : TaskRecord) (max_window : Int) : ℚ :=
  (t.impact / ((max 1 t.minutes : Int) : ℚ))
    * urgencyVal (days_until_deadline todayOrd t.deadline) max_window

/-! ## Start-time parsing: `map(int, start.split(":"))` and `time(...)` -/

/-- Python `int(s)` on a string (ASCII model): optional surrounding
whitespace, an optional sign, then a nonempty digit run in which single
underscores may separate digits. -/
def pyIntDigits : List Char → Bool → Nat → Option Nat
  | [], lastDigit, acc => if lastDigit then some acc else none
  | c :: cs, lastDigit, acc =>
    if c.isDigit then pyIntDigits cs true (acc * 10 + (c.toNat - 48))
    else if c = '_' && lastDigit then pyIntDigits cs false acc
    else none

/-- Python's whitespace predicate (`Py_UNICODE_ISSPACE`), which `int(s)`
strips from both ends: ASCII 9–13 (`\t\n\v\f\r`), 28–31 (the separator
controls), space, NEL (133), NBSP (160), Ogham space (5760), the Unicode
space separators 8192–8202, line/paragraph separators 8232/8233, narrow
NBSP (8239), medium mathematical space (8287) and ideographic space
(12288). -/
def pyIsSpace (c : Char) : Bool :=
  decide ((9 ≤ c.toNat ∧ c.toNat ≤ 13) ∨ (28 ≤ c.toNat ∧ c.toNat ≤ 32)
    ∨ c.toNat = 133 ∨ c.toNat = 160 ∨ c.toNat = 5760
    ∨ (8192 ≤ c.toNat ∧ c.toNat ≤ 8202) ∨ c.toNat = 8232 ∨ c.toNat = 8233
    ∨ c.toNat = 8239 ∨ c.toNat = 8287 ∨ c.toNat = 12288)

/-- Python `int(s)`: `none` where Python raises `ValueError`. -/
def pyParseInt (s : String) : Option Int :=
  let cs := (s.toList.dropWhile pyIsSpace).reverse.dropWhile pyIsSpace |>.reverse
  match cs with
  | '+' :: rest => (pyIntDigits rest false 0).map (fun n => (n : Int))
  | '-' :: rest => (pyIntDigits rest false 0).map (fun n => -(n : Int))
  | _ => (pyIntDigits cs false 0).map (fun n => (n : Int))

/-- Line 66 of `app.py`: `start_hour, start_min = map(int, start.split(":"))`.
`none` where Python raises (wrong number of `:`-separated parts, or a part
`int` rejects). -/
def parseStartTime (s : String) : Option (Int × Int) :=
  match splitOnChar ':' s.toList with
  | [hs, ms] =>
    match pyParseInt ⟨hs⟩, pyParseInt ⟨ms⟩ with
    | some h, some m => some (h, m)
    | _, _ => none
  | _ => none

/-- The range check of the `datetime.time(hour=h, minute=m)` constructor,
which `schedule_tasks_for_day` invokes whenever it emits a block (lines 76
and 91); out of range raises `ValueError`. -/
def timeOk (h m : Int) : Prop :=
  0 ≤ h ∧ h ≤ 23 ∧ 0 ≤ m ∧ m ≤ 59

instance (h m : Int) : Decidable (timeOk h m) := by
  unfold timeOk; infer_instance

/-! ## The packer -/

/-- A time of day, in minutes after midnight: adding `offset` minutes to
the base time `base` with `datetime.combine(...) + timedelta(...)` and
taking `.time()` wraps modulo 24 hours. -/
def timeAt (base offset : Int) : Int :=
  (base + offset) % 1440

/-- The sentinel used by `sort_key`: `t.get("deadline") or "9999-12-31"`.
Python's `or` replaces both `None` and the empty string by the sentinel. -/
def deadlineKey (t : TaskRecord) : String :=
  match t.deadline with
  | none => "9999-12-31"
  | some s => if s = "" then "9999-12-31" else s

/-- The comparison induced by `sort_key` (lines 60–62):
tasks sort by the tuple `(-score, deadline-or-sentinel, minutes)` in
non-decreasing lexicographic order, i.e. by score descending, then by the
deadline string ascending (Python compares these strings by code point,
which is the `LinearOrder String` order), then by stored minutes
ascending.  (The source caches each score in `t["_score"]` before
sorting; `compute_score` is pure, so recomputing it here is
equivalent.) -/
def sortKeyLE (todayOrd w : Int) (t1 t2 : TaskRecord) : Prop :=
  compute_score todayOrd t2 w < compute_score todayOrd t1 w
    ∨ (compute_score todayOrd t1 w = compute_score todayOrd t2 w
      ∧ (deadlineKey t1 < deadlineKey t2
        ∨ (deadlineKey t1 = deadlineKey t2 ∧ t1.minutes ≤ t2.minutes)))

instance sortKeyLE.decRel (todayOrd w : Int) :
    DecidableRel (sortKeyLE todayOrd w) := fun t1 t2 => by
  unfold sortKeyLE; infer_instance

instance sortKeyLE.total (todayOrd w : Int) :
    IsTotal TaskRecord (sortKeyLE todayOrd w) := by
  constructor
  intro a b
  unfold sortKeyLE
  rcases lt_trichotomy (compute_score todayOrd a w) (compute_score todayOrd b w)
    with hs | hs | hs
  · exact Or.inr (Or.inl hs)
  · rcases lt_trichotomy (deadlineKey a) (deadlineKey b) with hd | hd | hd
    · exact Or.inl (Or.inr ⟨hs, Or.inl hd⟩)
    · rcases Int.le_total a.minutes b.minutes with hm | hm
      · exact Or.inl (Or.inr ⟨hs, Or.inr ⟨hd, hm⟩⟩)
      · exact Or.inr (Or.inr ⟨hs.symm, Or.inr ⟨hd.symm, hm⟩⟩)
    · exact Or.inr (Or.inr ⟨hs.symm, Or.inl hd⟩)
  · exact Or.inl (Or.inl hs)

instance sortKeyLE.trans (todayOrd w : Int) :
    IsTrans TaskRecord (sortKeyLE todayOrd w) := by
  constructor
  intro a b c hab hbc
  unfold sortKeyLE at *
  rcases hab with hs1 | ⟨hs1, hd1⟩ <;> rcases hbc with hs2 | ⟨hs2, hd2⟩
  · exact Or.inl (lt_trans hs2 hs1)
  · exact Or.inl (hs2 ▸ hs1)
  · exact Or.inl (hs1 ▸ hs2)
  · refine Or.inr ⟨hs1.trans hs2, ?_⟩
    rcases hd1 with hd1 | ⟨hd1, hm1⟩ <;> rcases hd2 with hd2 | ⟨hd2, hm2⟩
    · exact Or.inl (lt_trans hd1 hd2)
    · exact Or.inl (hd2 ▸ hd1)
    · exact Or.inl (hd1 ▸ hd2)
    · exact Or.inr ⟨hd1.trans hd2, le_trans hm1 hm2⟩

/-- Line 63: `tasks.sort(key=sort_key)`.  Python's sort is a stable sort
by the key; `List.insertionSort` with the non-strict key order is also
stable (a later element is inserted below exactly the elements strictly
greater in the key order), and any two stable sorts by the same total
preorder agree, so this is the list Python produces. -/
def sortedTasks (todayOrd w : Int) (tasks : List TaskRecord) : List TaskRecord :=
  List.insertionSort (sortKeyLE todayOrd w) tasks

/-- The block built at lines 78–85 / 93–100 for task `t`, placed
`current` minutes into the day starting at `base`, lasting `dur` minutes
(`dur` is the full duration, or the remaining budget for a split block,
in which case the title gets the `" (part)"` suffix). -/
def mkBlock (t : TaskRecord) (base current dur : Int) (part : Bool) : Block :=
  { title := if part then t.title ++ " (part)" else t.title
    start := timeAt base current
    stop := timeAt base (current + dur)
    minutes := dur
    impact := t.impact
    deadline := t.deadline }

/-- The `for` loop of `schedule_tasks_for_day` (lines 71–103), walking the
sorted list with the elapsed-minutes cursor `current` and the remaining
budget `leftover`.  Each emitted block is paired with its source task
record (the pairing is a proof artefact; the source keeps only the
block). -/
def packGo (allowSplit : Bool) (base : Int) :
    List TaskRecord → Int → Int → List (Block × TaskRecord)
  | [], _, _ => []
  | t :: rest, current, leftover =>
    if leftover ≤ 0 then []
    else
      -- duration = int(t["minutes"]); `minutes` is already an `Int` here
      let duration := t.minutes
      if duration ≤ leftover then
        (mkBlock t base current duration false, t)
          :: packGo allowSplit base rest (current + duration) (leftover - duration)
      else if allowSplit ∧ 0 < leftover then
        -- chunk = leftover_minutes; afterwards leftover_minutes = 0, so the
        -- next loop iteration hits the `break`
        (mkBlock t base current leftover true, t)
          :: packGo allowSplit base rest (current + leftover) 0
      else
        -- otherwise skip task
        packGo allowSplit base rest current leftover

/-- The pairs `(block, source task)` produced by one run of
`schedule_tasks_for_day` after a successful start-time parse. -/
def packPairs (todayOrd : Int) (tasks : List TaskRecord) (total_minutes : Int)
    (h m : Int) (allowSplit : Bool) (w : Int) : List (Block × TaskRecord) :=
  packGo allowSplit (h * 60 + m) (sortedTasks todayOrd w tasks) 0 total_minutes

/-- `schedule_tasks_for_day` of `app.py`.  Deviations from the literal
source, each behaviour-preserving:
* the budget `total_minutes` is taken directly (source: `int(hours * 60)`);
* the `time(hour=start_hour, minute=start_min)` range check, which the
  source performs at the first block emission, is hoisted: the loop's
  `h`, `m` never change, so the source raises `ValueError` exactly when
  the range check fails and at least one block is emitted. -/
def schedule_tasks_for_day (todayOrd : Int) (tasks : List TaskRecord)
    (total_minutes : Int) (start : String) (allowSplit : Bool) (w : Int) :
    Except String (List Block) :=
  match parseStartTime start with
  | none => .error "ValueError: invalid start time"
  | some (h, m) =>
    let pairs := packPairs todayOrd tasks total_minutes h m allowSplit w
    if timeOk h m ∨ pairs = [] then .ok (pairs.map Prod.fst)
    else .error "ValueError: hour/minute out of range"

/-- Sum of the `minutes` fields of a run's blocks. -/
def sumMinutes (bs : List Block) : Int :=
  (bs.map Block.minutes).sum

/-- A block is *partial* when it covers strictly less than its source
task's stored duration. -/
def isPartial (p : Block × TaskRecord) : Prop :=
  p.1.minutes < p.2.minutes

instance isPartial.dec (p : Block × TaskRecord) : Decidable (isPartial p) := by
  unfold isPartial; infer_instance

example : parseDate "2024-02-29" = some ⟨2024, 2, 29⟩ := by decide
example : parseDate "2023-02-29" = none := by decide
example : parseDate "tomorrow" = none := by decide
example : parseDate "" = none := by decide
example : parseDate "2024-1-5" = some ⟨2024, 1, 5⟩ := by decide
example : parseDate "0000-01-01" = none := by decide
example : parseDate "999-12-31" = none := by decide
example : parseDate "1-01-01" = none := by decide
example : parseDate "2025-09- 1" = some ⟨2025, 9, 1⟩ := by decide
example : parseDate "2025- 9-01" = none := by decide
example : parseDate "2025-09-00" = none := by decide
example : dateOrdinal ⟨1, 1, 1⟩ = 1 := by decide
example : dateOrdinal ⟨2024, 3, 1⟩ = 738946 := by decide

example : parseStartTime "09:00" = some (9, 0) := by decide
example : parseStartTime "9:5" = some (9, 5) := by decide
example : parseStartTime "23:59" = some (23, 59) := by decide
example : parseStartTime "0900" = none := by decide
example : parseStartTime "a:b" = none := by decide
example : parseStartTime "9:0:0" = none := by decide
example : pyParseInt " 12 " = some 12 := by decide
example : pyParseInt "-3" = some (-3) := by decide
example : pyParseInt "1_0" = some 10 := by decide
example : pyParseInt "1__0" = none := by decide
example : pyParseInt "" = none := by decide
example : pyParseInt "9\x0c" = some 9 := by decide
example : pyParseInt "\x0b9\x1c" = some 9 := by decide
example : parseStartTime "9\x0c:00" = some (9, 0) := by decide

example :
    schedule_tasks_for_day 739000
      [⟨"a", 300, 1, none⟩, ⟨"b", 300, 1, none⟩] 480 "09:00" false 7
      = .ok [⟨"a", 540, 840, 300, 1, none⟩] := by
  have hp : parseStartTime "09:00" = some (9, 0) := by decide
  norm_num [schedule_tasks_for_day, packPairs, sortedTasks, sortKeyLE, compute_score,
    urgencyVal, days_until_deadline, deadlineKey, packGo, mkBlock, timeAt, timeOk, hp]

example :
    schedule_tasks_for_day 739000
      [⟨"a", 300, 1, none⟩, ⟨"b", 300, 1, none⟩] 480 "09:00" true 7
      = .ok [⟨"a", 540, 840, 300, 1, none⟩, ⟨"b (part)", 840, 1020, 180, 1, none⟩] := by
  have hp : parseStartTime "09:00" = some (9, 0) := by decide
  norm_num [schedule_tasks_for_day, packPairs, sortedTasks, sortKeyLE, compute_score,
    urgencyVal, days_until_deadline, deadlineKey, packGo, mkBlock, timeAt, timeOk, hp]
  decide

example :
    schedule_tasks_for_day 739000 [⟨"a", 300, 1, none⟩] 0 "09:00" false 7
      = .ok [] := by
  have hp : parseStartTime "09:00" = some (9, 0) := by decide
  norm_num [schedule_tasks_for_day, packPairs, sortedTasks, packGo, hp]

example :
    schedule_tasks_for_day 739000 [⟨"a", 120, 1, none⟩] 480 "23:00" false 7
      = .ok [⟨"a", 1380, 60, 120, 1, none⟩] := by
  have hp : parseStartTime "23:00" = some (23, 0) := by decide
  norm_num [schedule_tasks_for_day, packPairs, sortedTasks, packGo, mkBlock, timeAt,
    timeOk, hp]

/-! ## Loop invariants of the packer -/

/-- With no remaining budget the loop breaks at once. -/
theorem packGo_of_nonpos (a : Bool) (base : Int) (ts : List TaskRecord)
    (c l : Int) (hl : l ≤ 0) : packGo a base ts c l = [] := by
  cases ts with
  | nil => rfl
  | cons t rest => simp only [packGo]; rw [if_pos hl]

/-- Budget invariant: the minutes of the emitted blocks sum to at most
the remaining budget the loop started from. -/
theorem sumMinutes_packGo (a : Bool) (base : Int) (ts : List TaskRecord) :
    ∀ (c l : Int), 0 ≤ l →
      sumMinutes ((packGo a base ts c l).map Prod.fst) ≤ l := by
  induction ts with
  | nil => intro c l hl; simpa [packGo, sumMinutes] using hl
  | cons t rest ih =>
    intro c l hl
    by_cases h0 : l ≤ 0
    · simp only [packGo]; rw [if_pos h0]; simpa [sumMinutes] using hl
    · simp only [packGo]; rw [if_neg h0]
      by_cases hfit : t.minutes ≤ l
      · rw [if_pos hfit]
        have := ih (c + t.minutes) (l - t.minutes) (by omega)
        simp only [List.map_cons, sumMinutes, List.sum_cons, mkBlock] at this ⊢
        omega
      · rw [if_neg hfit]
        by_cases hs : (a = true) ∧ 0 < l
        · rw [if_pos hs]
          rw [packGo_of_nonpos a base rest (c + l) 0 le_rfl]
          simp [sumMinutes, mkBlock]
        · rw [if_neg hs]
          exact ih c l hl

/-- Partial-block invariant: a full block is never partial, and once a
split block is emitted the loop stops, so along any run the partial
blocks number at most one; any partial block is the last pair, occurs
only with splitting enabled, and forces the run's minutes to sum to the
whole remaining budget. -/
theorem packGo_partial_invariant (a : Bool) (base : Int) (ts : List TaskRecord) :
    ∀ (c l : Int),
      ((packGo a base ts c l).countP (fun p => decide (isPartial p))) ≤ 1
        ∧ (∀ p ∈ packGo a base ts c l, isPartial p →
            a = true
              ∧ (packGo a base ts c l).getLast? = some p
              ∧ sumMinutes ((packGo a base ts c l).map Prod.fst) = l) := by
  induction ts with
  | nil => intro c l; simp [packGo]
  | cons t rest ih =>
    intro c l
    by_cases h0 : l ≤ 0
    · simp only [packGo]; rw [if_pos h0]; simp
    · simp only [packGo]; rw [if_neg h0]
      by_cases hfit : t.minutes ≤ l
      · rw [if_pos hfit]
        have hnp : ¬ isPartial (mkBlock t base c t.minutes false, t) := by
          simp [isPartial, mkBlock]
        obtain ⟨ihc, ihp⟩ := ih (c + t.minutes) (l - t.minutes)
        constructor
        · simpa [List.countP_cons, hnp] using ihc
        · intro p hp hpart
          rcases List.mem_cons.mp hp with rfl | hp
          · exact absurd hpart hnp
          · obtain ⟨ha, hlast, hsum⟩ := ihp p hp hpart
            refine ⟨ha, ?_, ?_⟩
            · cases hr : packGo a base rest (c + t.minutes) (l - t.minutes) with
              | nil => rw [hr] at hp; exact absurd hp (List.not_mem_nil p)
              | cons q qs => rw [hr] at hlast; simpa using hlast
            · simp only [List.map_cons, sumMinutes, List.sum_cons, mkBlock] at hsum ⊢
              omega
      · rw [if_neg hfit]
        by_cases hs : (a = true) ∧ 0 < l
        · rw [if_pos hs]
          rw [packGo_of_nonpos a base rest (c + l) 0 le_rfl]
          constructor
          · simp only [List.countP_cons, List.countP_nil]
            split <;> omega
          · intro p hp hpart
            rcases List.mem_cons.mp hp with rfl | hp
            · refine ⟨hs.1, rfl, ?_⟩
              simp [sumMinutes, mkBlock]
            · exact absurd hp (List.not_mem_nil p)
        · rw [if_neg hs]
          exact ih c l

/-- The first block a loop run emits starts at the current cursor
position (also across leading skipped tasks, which leave the cursor
unchanged). -/
theorem packGo_head_start (a : Bool) (base : Int) (ts : List TaskRecord) :
    ∀ (c l : Int) (p : Block × TaskRecord),
      (packGo a base ts c l).head? = some p → p.1.start = timeAt base c := by
  induction ts with
  | nil => intro c l p h; simp [packGo] at h
  | cons t rest ih =>
    intro c l p h
    by_cases h0 : l ≤ 0
    · rw [packGo_of_nonpos a base _ c l h0] at h; simp at h
    · simp only [packGo] at h; rw [if_neg h0] at h
      by_cases hfit : t.minutes ≤ l
      · rw [if_pos hfit] at h
        simp only [List.head?_cons, Option.some.injEq] at h
        rw [← h]; exact rfl
      · rw [if_neg hfit] at h
        by_cases hs : (a = true) ∧ 0 < l
        · rw [if_pos hs] at h
          simp only [List.head?_cons, Option.some.injEq] at h
          rw [← h]; exact rfl
        · rw [if_neg hs] at h
          exact ih c l p h

/-- Contiguity invariant: each emitted block ends where the next one
starts. -/
theorem packGo_chain (a : Bool) (base : Int) (ts : List TaskRecord) :
    ∀ (c l : Int),
      List.Chain' (fun b b' => b.stop = b'.start)
        ((packGo a base ts c l).map Prod.fst) := by
  induction ts with
  | nil => intro c l; simp [packGo]
  | cons t rest ih =>
    intro c l
    by_cases h0 : l ≤ 0
    · rw [packGo_of_nonpos a base _ c l h0]; simp
    · simp only [packGo]; rw [if_neg h0]
      by_cases hfit : t.minutes ≤ l
      · rw [if_pos hfit]
        rw [List.map_cons, List.chain'_cons']
        refine ⟨?_, ih (c + t.minutes) (l - t.minutes)⟩
        intro y hy
        cases hr : (packGo a base rest (c + t.minutes) (l - t.minutes)) with
        | nil => rw [hr] at hy; simp at hy
        | cons q qs =>
          rw [hr] at hy
          simp only [List.map_cons, List.head?_cons, Option.mem_def,
            Option.some.injEq] at hy
          have hq : (packGo a base rest (c + t.minutes) (l - t.minutes)).head?
              = some q := by rw [hr]; rfl
          have := packGo_head_start a base rest (c + t.minutes) (l - t.minutes) q hq
          rw [← hy, this]
          rfl
      · rw [if_neg hfit]
        by_cases hs : (a = true) ∧ 0 < l
        · rw [if_pos hs]
          rw [packGo_of_nonpos a base rest (c + l) 0 le_rfl]
          simp
        · rw [if_neg hs]
          exact ih c l

/-- When the whole scheduling window lies inside one calendar day and all
tasks last at least one minute, every emitted block has a strictly
earlier start than end (no wrap past midnight occurs). -/
theorem packGo_start_lt_stop (a : Bool) (base : Int) (ts : List TaskRecord) :
    ∀ (c l : Int), 0 ≤ base → 0 ≤ c → base + c + l < 1440 →
      (∀ t ∈ ts, 1 ≤ t.minutes) →
      ∀ b ∈ (packGo a base ts c l).map Prod.fst, b.start < b.stop := by
  induction ts with
  | nil => intro c l _ _ _ _ b hb; simp [packGo] at hb
  | cons t rest ih =>
    intro c l hbase hc hfit hmins b hb
    by_cases h0 : l ≤ 0
    · rw [packGo_of_nonpos a base _ c l h0] at hb; simp at hb
    · have hl : 0 < l := by omega
      have ht : 1 ≤ t.minutes := hmins t (List.mem_cons_self t rest)
      simp only [packGo] at hb; rw [if_neg h0] at hb
      by_cases hdur : t.minutes ≤ l
      · rw [if_pos hdur] at hb
        rw [List.map_cons] at hb
        rcases List.mem_cons.mp hb with rfl | hb2
        · show timeAt base c < timeAt base (c + t.minutes)
          unfold timeAt
          rw [Int.emod_eq_of_lt (by omega) (by omega),
            Int.emod_eq_of_lt (by omega) (by omega)]
          omega
        · exact ih (c + t.minutes) (l - t.minutes) hbase (by omega) (by omega)
            (fun u hu => hmins u (List.mem_cons_of_mem t hu)) b hb2
      · rw [if_neg hdur] at hb
        by_cases hs : (a = true) ∧ 0 < l
        · rw [if_pos hs] at hb
          rw [packGo_of_nonpos a base rest (c + l) 0 le_rfl] at hb
          simp only [List.map_cons, List.map_nil] at hb
          rcases List.mem_cons.mp hb with rfl | hb2
          · show timeAt base c < timeAt base (c + l)
            unfold timeAt
            rw [Int.emod_eq_of_lt (by omega) (by omega),
              Int.emod_eq_of_lt (by omega) (by omega)]
            omega
          · simp at hb2
        · rw [if_neg hs] at hb
          exact ih c l hbase hc (by omega)
            (fun u hu => hmins u (List.mem_cons_of_mem t hu)) b hb

/-! ## Claims -/

/-- C1, amended: for every task list whose tasks all have `minutes ≥ 1`,
every *nonnegative* daily budget, every valid start time and every
`allow_split` setting, the sum of the `minutes` of the blocks returned by
the packer never exceeds the daily budget.  (As stated, with the budget
unrestricted, the claim fails: a negative `int(hours * 60)` yields an
empty schedule whose total `0` exceeds the budget; see the
counterexample.) -/
theorem C1_budget_respected (todayOrd : Int) (tasks : List TaskRecord)
    (total : Int) (s : String) (allow : Bool) (w : Int) (blocks : List Block)
    (htotal : 0 ≤ total) (hmins : ∀ t ∈ tasks, 1 ≤ t.minutes)
    (hrun : schedule_tasks_for_day todayOrd tasks total s allow w
      = Except.ok blocks) :
    sumMinutes blocks ≤ total := by
  unfold schedule_tasks_for_day at hrun
  cases hps : parseStartTime s with
  | none => rw [hps] at hrun; exact absurd hrun (by simp)
  | some hm =>
    obtain ⟨h, m⟩ := hm
    rw [hps] at hrun
    dsimp only at hrun
    by_cases hcond : timeOk h m ∨ packPairs todayOrd tasks total h m allow w = []
    · rw [if_pos hcond] at hrun
      simp only [Except.ok.injEq] at hrun
      rw [← hrun]
      exact sumMinutes_packGo allow (h * 60 + m) (sortedTasks todayOrd w tasks)
        0 total htotal
    · rw [if_neg hcond] at hrun
      exact absurd hrun (by simp)

/-- Witness for C1: scenario C of the spec (two 300-minute tasks, budget
480, no splitting) respects the budget. -/
theorem C1_witness :
    sumMinutes [⟨"a", 540, 840, 300, 1, none⟩] ≤ (480 : Int) := by
  refine C1_budget_respected 739000
    [⟨"a", 300, 1, none⟩, ⟨"b", 300, 1, none⟩] 480 "09:00" false 7
    [⟨"a", 540, 840, 300, 1, none⟩] (by norm_num) ?_ ?_
  · intro t ht
    rcases List.mem_cons.mp ht with rfl | ht2
    · norm_num
    · rcases List.mem_cons.mp ht2 with rfl | ht3
      · norm_num
      · exact absurd ht3 (List.not_mem_nil t)
  · have hp : parseStartTime "09:00" = some (9, 0) := by decide
    norm_num [schedule_tasks_for_day, packPairs, sortedTasks, sortKeyLE,
      compute_score, urgencyVal, days_until_deadline, deadlineKey, packGo,
      mkBlock, timeAt, timeOk, hp]

/-- Counterexample to C1 as stated: with the (reachable) negative budget
`int(hours * 60) = -60` the run returns an empty schedule, and its total
of `0` minutes exceeds the budget. -/
theorem C1_counterexample :
    schedule_tasks_for_day 739000 [⟨"a", 30, 1, none⟩] (-60) "09:00" false 7
        = Except.ok []
      ∧ ¬ (sumMinutes [] ≤ (-60 : Int)) := by
  constructor
  · have hp : parseStartTime "09:00" = some (9, 0) := by decide
    norm_num [schedule_tasks_for_day, packPairs, sortedTasks, packGo, hp]
  · decide

/-- C2: in every run at most one emitted block is partial (covers
strictly less than its source task's stored minutes); a partial block,
when present, is the last one, occurs only with `allow_split` enabled,
and is emitted exactly when the remaining budget reaches zero, so the
run's total allocated minutes then equals the daily budget exactly. -/
theorem C2_at_most_one_split_block (todayOrd : Int) (tasks : List TaskRecord)
    (total h m : Int) (allow : Bool) (w : Int) :
    ((packPairs todayOrd tasks total h m allow w).countP
        (fun p => decide (isPartial p))) ≤ 1
      ∧ (∀ p ∈ packPairs todayOrd tasks total h m allow w, isPartial p →
          allow = true
            ∧ (packPairs todayOrd tasks total h m allow w).getLast? = some p
            ∧ sumMinutes ((packPairs todayOrd tasks total h m allow w).map
                Prod.fst) = total) := by
  unfold packPairs
  exact packGo_partial_invariant allow (h * 60 + m)
    (sortedTasks todayOrd w tasks) 0 total

/-- Witness for C2: scenario D of the spec (two 300-minute tasks, budget
480, splitting on) emits its one partial block last, and the run uses the
budget exactly. -/
theorem C2_witness :
    (true : Bool) = true
      ∧ (packPairs 739000 [⟨"a", 300, 1, none⟩, ⟨"b", 300, 1, none⟩]
            480 9 0 true 7).getLast?
          = some (⟨"b (part)", 840, 1020, 180, 1, none⟩, ⟨"b", 300, 1, none⟩)
      ∧ sumMinutes ((packPairs 739000
            [⟨"a", 300, 1, none⟩, ⟨"b", 300, 1, none⟩] 480 9 0 true 7).map
            Prod.fst) = 480 := by
  have hpairs : packPairs 739000 [⟨"a", 300, 1, none⟩, ⟨"b", 300, 1, none⟩]
      480 9 0 true 7
      = [(⟨"a", 540, 840, 300, 1, none⟩, ⟨"a", 300, 1, none⟩),
         (⟨"b (part)", 840, 1020, 180, 1, none⟩, ⟨"b", 300, 1, none⟩)] := by
    norm_num [packPairs, sortedTasks, sortKeyLE, compute_score, urgencyVal,
      days_until_deadline, deadlineKey, packGo, mkBlock, timeAt]
    decide
  refine (C2_at_most_one_split_block 739000
      [⟨"a", 300, 1, none⟩, ⟨"b", 300, 1, none⟩] 480 9 0 true 7).2
    (⟨"b (part)", 840, 1020, 180, 1, none⟩, ⟨"b", 300, 1, none⟩) ?_ ?_
  · rw [hpairs]
    exact List.mem_cons_of_mem _ (List.mem_cons_self _ _)
  · show (180 : Int) < 300
    decide

/-- C3, amended: every run that returns blocks starts its first block
exactly at the parsed start time, and consecutive blocks are contiguous
(each block ends where the next starts, across skipped tasks).  Every
block has strictly positive length *provided* all tasks have
`minutes ≥ 1` (a stored `minutes = 0` yields a block with
`start = end`) and the whole window fits within the day
(`start + dailyMinutes < 24h`; blocks of a window crossing midnight wrap,
and a wrapped block's end-of-day string compares below its start).  The
claim as stated, without the two provisos, is refuted by the
counterexample. -/
theorem C3_blocks_contiguous (todayOrd : Int) (tasks : List TaskRecord)
    (total : Int) (s : String) (allow : Bool) (w h m : Int)
    (blocks : List Block)
    (hps : parseStartTime s = some (h, m))
    (hok : timeOk h m)
    (hrun : schedule_tasks_for_day todayOrd tasks total s allow w
      = Except.ok blocks) :
    (∀ b, blocks.head? = some b → b.start = h * 60 + m)
      ∧ List.Chain' (fun b b2 => b.stop = b2.start) blocks
      ∧ ((∀ t ∈ tasks, 1 ≤ t.minutes) → h * 60 + m + total < 1440 →
          ∀ b ∈ blocks, b.start < b.stop) := by
  obtain ⟨h0, h1, h2, h3⟩ := hok
  have hbase0 : (0 : Int) ≤ h * 60 + m := by omega
  have hbase1 : h * 60 + m < 1440 := by omega
  unfold schedule_tasks_for_day at hrun
  rw [hps] at hrun
  dsimp only at hrun
  by_cases hcond : timeOk h m ∨ packPairs todayOrd tasks total h m allow w = []
  · rw [if_pos hcond] at hrun
    simp only [Except.ok.injEq] at hrun
    subst hrun
    refine ⟨?_, ?_, ?_⟩
    · intro b hb
      rw [List.head?_map] at hb
      cases hq : (packPairs todayOrd tasks total h m allow w).head? with
      | none => rw [hq] at hb; simp at hb
      | some q =>
        rw [hq] at hb
        simp only [Option.map_some', Option.some.injEq] at hb
        have := packGo_head_start allow (h * 60 + m)
          (sortedTasks todayOrd w tasks) 0 total q hq
        rw [← hb, this]
        unfold timeAt
        rw [add_zero, Int.emod_eq_of_lt hbase0 hbase1]
    · exact packGo_chain allow (h * 60 + m) (sortedTasks todayOrd w tasks)
        0 total
    · intro hmins hfit b hb
      refine packGo_start_lt_stop allow (h * 60 + m)
        (sortedTasks todayOrd w tasks) 0 total hbase0 le_rfl (by omega) ?_ b hb
      intro t ht
      exact hmins t ((List.perm_insertionSort _ tasks).mem_iff.mp ht)
  · rw [if_neg hcond] at hrun
    exact absurd hrun (by simp)

/-- Witness for C3: a one-task run starting at 09:00. -/
theorem C3_witness :
    (∀ b, [Block.mk "a" 540 660 120 1 none].head? = some b → b.start = 9 * 60 + 0)
      ∧ List.Chain' (fun b b2 => b.stop = b2.start)
          [Block.mk "a" 540 660 120 1 none]
      ∧ ((∀ t ∈ [(⟨"a", 120, 1, none⟩ : TaskRecord)], 1 ≤ t.minutes) →
          (9 : Int) * 60 + 0 + 480 < 1440 →
          ∀ b ∈ [Block.mk "a" 540 660 120 1 none], b.start < b.stop) := by
  refine C3_blocks_contiguous 739000 [⟨"a", 120, 1, none⟩] 480 "09:00"
    false 7 9 0 [Block.mk "a" 540 660 120 1 none] (by decide) (by decide) ?_
  have hp : parseStartTime "09:00" = some (9, 0) := by decide
  norm_num [schedule_tasks_for_day, packPairs, sortedTasks, packGo,
    mkBlock, timeAt, timeOk, hp]

/-- Counterexample to C3 as stated: (a) a 120-minute task scheduled from
23:00 wraps past midnight, so its block runs 23:00–01:00 and its start
does not precede its end; (b) a task stored with `minutes = 0` yields a
block of zero length (`start = end`).  Both runs return non-empty block
sequences. -/
theorem C3_counterexample :
    (schedule_tasks_for_day 739000 [⟨"a", 120, 1, none⟩] 480 "23:00" false 7
        = Except.ok [⟨"a", 1380, 60, 120, 1, none⟩]
      ∧ ¬ ((1380 : Int) < 60))
      ∧ (schedule_tasks_for_day 739000 [⟨"a", 0, 1, none⟩] 480 "09:00" false 7
        = Except.ok [⟨"a", 540, 540, 0, 1, none⟩]
      ∧ ¬ ((540 : Int) < 540)) := by
  refine ⟨⟨?_, by decide⟩, ⟨?_, by decide⟩⟩
  · have hp : parseStartTime "23:00" = some (23, 0) := by decide
    norm_num [schedule_tasks_for_day, packPairs, sortedTasks, packGo,
      mkBlock, timeAt, timeOk, hp]
  · have hp : parseStartTime "09:00" = some (9, 0) := by decide
    norm_num [schedule_tasks_for_day, packPairs, sortedTasks, packGo,
      mkBlock, timeAt, timeOk, hp]

/-- C4, amended: before placement the packer orders the tasks by
descending score, breaking score ties by the raw deadline *string* in
lexicographic order — missing and empty deadlines replaced by the
sentinel string `"9999-12-31"` — and then by shortest stored duration;
greedy placement walks exactly this list.  (For zero-padded `YYYY-MM-DD`
deadlines the string order coincides with earliest-deadline order, but
`strptime` also accepts non-padded dates, for which it does not; see the
counterexample.) -/
theorem C4_sort_order (todayOrd w : Int) (tasks : List TaskRecord)
    (total h m : Int) (allow : Bool) :
    (sortedTasks todayOrd w tasks).Perm tasks
      ∧ (sortedTasks todayOrd w tasks).Sorted (sortKeyLE todayOrd w)
      ∧ packPairs todayOrd tasks total h m allow w
          = packGo allow (h * 60 + m) (sortedTasks todayOrd w tasks) 0 total
      ∧ (∀ t : TaskRecord, t.deadline = none → deadlineKey t = "9999-12-31") := by
  refine ⟨List.perm_insertionSort _ tasks, List.sorted_insertionSort _ tasks,
    rfl, ?_⟩
  intro t ht
  unfold deadlineKey
  rw [ht]

/-- Witness for C4: instantiation at a concrete undated task. -/
theorem C4_witness :
    deadlineKey ⟨"x", 10, 1, none⟩ = "9999-12-31" :=
  (C4_sort_order 739000 7 [] 0 9 0 false).2.2.2 ⟨"x", 10, 1, none⟩ rfl

/-- Counterexample to C4 as stated: two tasks with equal scores whose
deadlines `"2025-9-1"` and `"2025-10-01"` both parse (to 2025-09-01 and
2025-10-01); the September deadline is the earlier date, yet the packer
orders the October task first, because Python compares the deadline
strings lexicographically and `"2025-10-01" < "2025-9-1"` as strings. -/
theorem C4_counterexample :
    sortedTasks 739000 7
        [⟨"sep", 300, 1, some "2025-9-1"⟩, ⟨"oct", 300, 1, some "2025-10-01"⟩]
        = [⟨"oct", 300, 1, some "2025-10-01"⟩, ⟨"sep", 300, 1, some "2025-9-1"⟩]
      ∧ compute_score 739000 ⟨"sep", 300, 1, some "2025-9-1"⟩ 7
          = compute_score 739000 ⟨"oct", 300, 1, some "2025-10-01"⟩ 7
      ∧ parseDate "2025-9-1" = some ⟨2025, 9, 1⟩
      ∧ parseDate "2025-10-01" = some ⟨2025, 10, 1⟩
      ∧ dateOrdinal ⟨2025, 9, 1⟩ < dateOrdinal ⟨2025, 10, 1⟩ := by
  have hsep : days_until_deadline 739000 (some "2025-9-1") = some 495 := by
    decide
  have hoct : days_until_deadline 739000 (some "2025-10-01") = some 525 := by
    decide
  have hno : ¬ sortKeyLE 739000 7 ⟨"sep", 300, 1, some "2025-9-1"⟩
      ⟨"oct", 300, 1, some "2025-10-01"⟩ := by
    unfold sortKeyLE
    norm_num [compute_score, urgencyVal, deadlineKey, hsep, hoct]
    decide
  refine ⟨?_, ?_, by decide, by decide, by decide⟩
  · unfold sortedTasks
    simp only [List.insertionSort, List.orderedInsert, if_neg hno]
  · norm_num [compute_score, urgencyVal, hsep, hoct]

/-- C5: when splitting is disabled and a task's full duration exceeds the
remaining budget, the loop skips that task and continues scanning the
remaining tasks with the cursor and budget unchanged; in particular
(scenario C of the spec) two 300-minute tasks against a 480-minute budget
without splitting yield exactly one 300-minute block. -/
theorem C5_skip_and_continue (base c l : Int) (t : TaskRecord)
    (rest : List TaskRecord) (h1 : 0 < l) (h2 : l < t.minutes) :
    packGo false base (t :: rest) c l = packGo false base rest c l
      ∧ schedule_tasks_for_day 739000
          [⟨"a", 300, 1, none⟩, ⟨"b", 300, 1, none⟩] 480 "09:00" false 7
          = Except.ok [⟨"a", 540, 840, 300, 1, none⟩] := by
  constructor
  · simp only [packGo]
    rw [if_neg (by omega : ¬ l ≤ 0), if_neg (by omega : ¬ t.minutes ≤ l),
      if_neg (by simp : ¬ ((false = true) ∧ 0 < l))]
  · have hp : parseStartTime "09:00" = some (9, 0) := by decide
    norm_num [schedule_tasks_for_day, packPairs, sortedTasks, sortKeyLE,
      compute_score, urgencyVal, days_until_deadline, deadlineKey, packGo,
      mkBlock, timeAt, timeOk, hp]

/-- Witness for C5: the 300-minute task `"b"` with 180 minutes of budget
left is skipped, leaving the scan to continue over the rest. -/
theorem C5_witness :
    (packGo false 540 [⟨"b", 300, 1, none⟩] 0 180
        = packGo false 540 ([] : List TaskRecord) 0 180)
      ∧ schedule_tasks_for_day 739000
          [⟨"a", 300, 1, none⟩, ⟨"b", 300, 1, none⟩] 480 "09:00" false 7
          = Except.ok [⟨"a", 540, 840, 300, 1, none⟩] :=
  C5_skip_and_continue 540 0 180 ⟨"b", 300, 1, none⟩ [] (by decide) (by decide)

/-- C6: a task whose deadline is absent or fails to parse as a valid
`YYYY-MM-DD` calendar date scores exactly `impact / max(1, minutes)`
(urgency multiplier exactly `1.0`); no exception is involved — both the
scorer and the date helper are total on such inputs. -/
theorem C6_no_deadline_score (todayOrd : Int) (t : TaskRecord) (w : Int)
    (hd : days_until_deadline todayOrd t.deadline = none) :
    compute_score todayOrd t w = t.impact / ((max 1 t.minutes : Int) : ℚ) := by
  unfold compute_score
  rw [hd]
  unfold urgencyVal
  rw [mul_one]

/-- Witness for C6: scenario A of the spec with an unparseable deadline
string (`impact 2`, `minutes 60` score exactly `2/60`). -/
theorem C6_witness :
    compute_score 739000 ⟨"t", 60, 2, some "tomorrow"⟩ 7
        = (2 : ℚ) / ((max 1 (60 : Int) : Int) : ℚ) :=
  C6_no_deadline_score 739000 ⟨"t", 60, 2, some "tomorrow"⟩ 7 (by decide)

/-- C7: for a task with a valid deadline and a positive urgency window
`w`, the urgency multiplier equals
`1 + max(0, (w - days_left)/w)` with `days_left = max(0, deadline - today)`;
it always lies in `[1, 2]`, is exactly `2` for a deadline at or before
today, and exactly `1` for a deadline at least `w` days away. -/
theorem C7_urgency_bounds (todayOrd w : Int) (s : String) (dt : Date)
    (hp : parseDate s = some dt) (hw : 0 < w) :
    days_until_deadline todayOrd (some s)
        = some (max 0 (dateOrdinal dt - todayOrd))
      ∧ urgencyVal (days_until_deadline todayOrd (some s)) w
          = 1 + max 0 (((w : ℚ) - ((max 0 (dateOrdinal dt - todayOrd) : Int) : ℚ))
              / (w : ℚ))
      ∧ 1 ≤ urgencyVal (days_until_deadline todayOrd (some s)) w
      ∧ urgencyVal (days_until_deadline todayOrd (some s)) w ≤ 2
      ∧ (dateOrdinal dt ≤ todayOrd →
          urgencyVal (days_until_deadline todayOrd (some s)) w = 2)
      ∧ (todayOrd + w ≤ dateOrdinal dt →
          urgencyVal (days_until_deadline todayOrd (some s)) w = 1) := by
  have hds : days_until_deadline todayOrd (some s)
      = some (max 0 (dateOrdinal dt - todayOrd)) := by
    simp only [days_until_deadline]
    rw [hp]
  have hwq : (0 : ℚ) < (w : ℚ) := by exact_mod_cast hw
  have hd0 : (0 : ℚ) ≤ ((max 0 (dateOrdinal dt - todayOrd) : Int) : ℚ) := by
    exact_mod_cast le_max_left 0 (dateOrdinal dt - todayOrd)
  refine ⟨hds, by rw [hds]; rfl, ?_, ?_, ?_, ?_⟩
  · rw [hds]
    show (1 : ℚ) ≤ 1 + max 0 _
    have := le_max_left (0 : ℚ)
      (((w : ℚ) - ((max 0 (dateOrdinal dt - todayOrd) : Int) : ℚ)) / (w : ℚ))
    linarith
  · rw [hds]
    show (1 : ℚ) + max 0 _ ≤ 2
    have h1 : ((w : ℚ) - ((max 0 (dateOrdinal dt - todayOrd) : Int) : ℚ))
        / (w : ℚ) ≤ 1 := by
      rw [div_le_one hwq]
      linarith
    have h2 : max 0 (((w : ℚ) - ((max 0 (dateOrdinal dt - todayOrd) : Int) : ℚ))
        / (w : ℚ)) ≤ 1 := max_le (by norm_num) h1
    linarith
  · intro hpast
    rw [hds]
    show (1 : ℚ) + max 0 _ = 2
    have hdz : max 0 (dateOrdinal dt - todayOrd) = (0 : Int) :=
      max_eq_left (by omega)
    rw [hdz]
    push_cast
    rw [sub_zero, div_self (ne_of_gt hwq)]
    norm_num
  · intro hfar
    rw [hds]
    show (1 : ℚ) + max 0 _ = 1
    have hdw : (w : ℚ) ≤ ((max 0 (dateOrdinal dt - todayOrd) : Int) : ℚ) := by
      exact_mod_cast le_max_of_le_right (by omega : w ≤ dateOrdinal dt - todayOrd)
    have hnp : ((w : ℚ) - ((max 0 (dateOrdinal dt - todayOrd) : Int) : ℚ))
        / (w : ℚ) ≤ 0 :=
      div_nonpos_iff.mpr (Or.inr ⟨by linarith, le_of_lt hwq⟩)
    rw [max_eq_left hnp]
    norm_num

/-- Witness for C7: deadline 2025-09-01 seen from day 739495 (its own
ordinal), window 7: the deadline is "today", so urgency is exactly 2. -/
theorem C7_witness :
    days_until_deadline 739495 (some "2025-09-01") = some (max 0 (739495 - 739495))
      ∧ urgencyVal (days_until_deadline 739495 (some "2025-09-01")) 7 = 2 := by
  have h := C7_urgency_bounds 739495 7 "2025-09-01" ⟨2025, 9, 1⟩ (by decide)
    (by decide)
  refine ⟨?_, h.2.2.2.2.1 (by decide)⟩
  have := h.1
  rw [this]
  decide

/-- C8: for fixed positive impact, fixed minutes and a fixed positive
window, the score is monotonically non-decreasing as the (valid) deadline
moves closer to today: an earlier-or-equal deadline date never scores
lower. -/
theorem C8_score_monotone (todayOrd w : Int) (title1 title2 : String)
    (mins : Int) (imp : ℚ) (s1 s2 : String) (d1 d2 : Date)
    (hw : 0 < w) (him : 0 < imp)
    (h1 : parseDate s1 = some d1) (h2 : parseDate s2 = some d2)
    (hle : dateOrdinal d1 ≤ dateOrdinal d2) :
    compute_score todayOrd ⟨title2, mins, imp, some s2⟩ w
      ≤ compute_score todayOrd ⟨title1, mins, imp, some s1⟩ w := by
  have hds1 : days_until_deadline todayOrd (some s1)
      = some (max 0 (dateOrdinal d1 - todayOrd)) := by
    simp only [days_until_deadline]; rw [h1]
  have hds2 : days_until_deadline todayOrd (some s2)
      = some (max 0 (dateOrdinal d2 - todayOrd)) := by
    simp only [days_until_deadline]; rw [h2]
  unfold compute_score
  show (imp / ((max 1 mins : Int) : ℚ)) * _ ≤ (imp / ((max 1 mins : Int) : ℚ)) * _
  have hmq : (0 : ℚ) < ((max 1 mins : Int) : ℚ) := by
    exact_mod_cast lt_of_lt_of_le Int.zero_lt_one (le_max_left 1 mins)
  have hf : (0 : ℚ) ≤ imp / ((max 1 mins : Int) : ℚ) :=
    le_of_lt (div_pos him hmq)
  refine mul_le_mul_of_nonneg_left ?_ hf
  rw [hds1, hds2]
  unfold urgencyVal
  have hwq : (0 : ℚ) < (w : ℚ) := by exact_mod_cast hw
  have hdle : ((max 0 (dateOrdinal d1 - todayOrd) : Int) : ℚ)
      ≤ ((max 0 (dateOrdinal d2 - todayOrd) : Int) : ℚ) := by
    exact_mod_cast max_le_max (le_refl (0 : Int)) (by omega)
  have hdiv : ((w : ℚ) - ((max 0 (dateOrdinal d2 - todayOrd) : Int) : ℚ)) / (w : ℚ)
      ≤ ((w : ℚ) - ((max 0 (dateOrdinal d1 - todayOrd) : Int) : ℚ)) / (w : ℚ) :=
    (div_le_div_iff_of_pos_right hwq).mpr (by linarith)
  have hmax := max_le_max (le_refl (0 : ℚ)) hdiv
  linarith

/-- Witness for C8: deadline 2025-09-01 (earlier) scores at least as high
as 2025-10-01 (later) as seen from day 739495, window 7, impact 2,
60 minutes. -/
theorem C8_witness :
    compute_score 739495 ⟨"t2", 60, 2, some "2025-10-01"⟩ 7
      ≤ compute_score 739495 ⟨"t1", 60, 2, some "2025-09-01"⟩ 7 :=
  C8_score_monotone 739495 7 "t1" "t2" 60 2 "2025-09-01" "2025-10-01"
    ⟨2025, 9, 1⟩ ⟨2025, 10, 1⟩ (by decide) (by norm_num) (by decide) (by decide)
    (by decide)

/-- C10: the `max(1, ...)` clamp lives only in the scorer.  When the loop
reaches, with positive remaining budget, a task stored with
`minutes = 0`, it emits a block of zero minutes whose start equals its
end, and continues with the cursor and the budget unchanged. -/
theorem C10_zero_minute_block (a : Bool) (base c l : Int) (t : TaskRecord)
    (rest : List TaskRecord) (h0 : t.minutes = 0) (hl : 0 < l) :
    packGo a base (t :: rest) c l
        = (mkBlock t base c 0 false, t) :: packGo a base rest c l
      ∧ (mkBlock t base c 0 false).minutes = 0
      ∧ (mkBlock t base c 0 false).start = (mkBlock t base c 0 false).stop := by
  refine ⟨?_, rfl, ?_⟩
  · simp only [packGo]
    rw [if_neg (by omega : ¬ l ≤ 0), if_pos (by omega : t.minutes ≤ l), h0]
    norm_num
  · show timeAt base c = timeAt base (c + 0)
    rw [add_zero]

/-- Witness for C10: a zero-minute task against a 480-minute budget. -/
theorem C10_witness :
    packGo false 540 [⟨"z", 0, 1, none⟩] 0 480
        = (mkBlock ⟨"z", 0, 1, none⟩ 540 0 0 false, ⟨"z", 0, 1, none⟩)
          :: packGo false 540 [] 0 480
      ∧ (mkBlock ⟨"z", 0, 1, none⟩ 540 0 0 false).minutes = 0
      ∧ (mkBlock ⟨"z", 0, 1, none⟩ 540 0 0 false).start
          = (mkBlock ⟨"z", 0, 1, none⟩ 540 0 0 false).stop :=
  C10_zero_minute_block false 540 0 480 ⟨"z", 0, 1, none⟩ [] (by decide)
    (by decide)
